import Mathlib

/-!
Verification of the BIP-340 cryptosuite key and proof layer.

Definitions embed the TypeScript sources of the repository: the secp256k1
constants and key classes under src/keys and src/crypto, the Multikey and
Cryptosuite classes, and the DataIntegrityProof orchestrator.  External
collaborators of the code base (the tiny-secp256k1 scalar multiplication,
the noble SHA-256 hash, the multiformats base58btc codec) are embedded as
executable reference implementations of the algorithms those libraries
implement.
-/

deriving instance DecidableEq for Except

set_option maxRecDepth 100000
set_option maxHeartbeats 4000000

/-- secp256k1 field prime, from src/src/keys/constants.ts (`P`). -/
def P : Nat := 2 ^ 256 - 0x1000003d1

/-- secp256k1 group order, from src/src/keys/constants.ts (`N`). -/
def N : Nat := 2 ^ 256 - 0x14551231950b75fc4402da1732fc9bebf

/-- Base point x coordinate, from src/src/keys/constants.ts (`Gx`). -/
def Gx : Nat := 0x79be667ef9dcbbac55a06295ce870b07029bfcdb2dce28d959f2815b16f81798

/-- Base point y coordinate, from src/src/keys/constants.ts (`Gy`). -/
def Gy : Nat := 0x483ada7726a3c4655da4fbfc0e1108a8fd17b448a68554199c47d08ffb10d4b8

/-- Fixed BIP-340 Multikey header, from src/src/keys/constants.ts
(`SECP256K1_XONLY_PREFIX = [0xe1, 0x4a]`). -/
def SECP256K1_XONLY_PREFIX : List Nat := [0xe1, 0x4a]

/-- Big-endian byte list to natural number, as computed by the
`get secret` accessor of src/src/keys/private-key.ts
(`bytes.reduce((acc, byte) => (acc << 8n) | BigInt(byte), 0n)`). -/
def beNat (bs : List Nat) : Nat := bs.foldl (fun acc b => acc * 256 + b) 0

/-- Fixed-width 32-byte big-endian serialization of a scalar, as computed by
`toBytes` of src/src/keys/private-key.ts
(`Uint8Array.from({length: 32}, (_, i) => Number(secret >> BigInt(8*(31-i)) & 0xff))`). -/
def be32 (n : Nat) : List Nat := (List.range 32).map (fun i => n / 256 ^ (31 - i) % 256)

theorem be32_length (n : Nat) : (be32 n).length = 32 := by
  simp [be32]

theorem be32_entries_lt (n : Nat) : ∀ b ∈ be32 n, b < 256 := by
  intro b hb
  simp only [be32, List.mem_map] at hb
  obtain ⟨i, _, hi⟩ := hb
  omega

/-- Square-and-multiply modular exponentiation, fuel-indexed so that the
kernel can evaluate it.  Models the `modPow` curve primitive. -/
def modPowAux : Nat → Nat → Nat → Nat → Nat
  | 0, _, _, m => 1 % m
  | fuel + 1, b, e, m =>
    if e = 0 then 1 % m
    else
      let r := modPowAux fuel (b * b % m) (e / 2) m
      if e % 2 = 1 then r * (b % m) % m else r

/-- Modelled from the spec: `modPow(base, exp, mod)`, standard
square-and-multiply modular exponentiation over unsigned big integers
(section 4.1 Curve Primitives; the function itself is absent from src/). -/
def modPow (b e m : Nat) : Nat := modPowAux 513 b e m

theorem modPowAux_lt (fuel b e m : Nat) (hm : 0 < m) : modPowAux fuel b e m < m := by
  induction fuel generalizing b e with
  | zero => simpa [modPowAux] using Nat.mod_lt _ hm
  | succ fuel ih =>
    simp only [modPowAux]
    split
    · exact Nat.mod_lt _ hm
    · split
      · exact Nat.mod_lt _ hm
      · exact ih _ _

theorem modPow_lt (b e m : Nat) (hm : 0 < m) : modPow b e m < m :=
  modPowAux_lt _ _ _ _ hm

/-- Modular inverse in the secp256k1 base field via Fermat's little theorem,
as used by the affine group law of the scalar-multiplication collaborator. -/
def fI (a : Nat) : Nat := modPow a (P - 2) P

/-- Affine secp256k1 point addition (chord-tangent law, `none` is the point
at infinity).  Executable model of the point arithmetic performed by the
external `tiny-secp256k1` collaborator. -/
def pointAdd : Option (Nat × Nat) → Option (Nat × Nat) → Option (Nat × Nat)
  | none, q => q
  | some p, none => some p
  | some (x1, y1), some (x2, y2) =>
    if x1 % P = x2 % P then
      if (y1 + y2) % P = 0 then none
      else
        let l := 3 * x1 * x1 % P * fI (2 * y1 % P) % P
        let x3 := (l * l + 2 * (P - x1 % P)) % P
        some (x3, (l * (x1 + (P - x3)) + (P - y1 % P)) % P)
    else
      let l := (y2 + (P - y1 % P)) % P * fI ((x2 + (P - x1 % P)) % P) % P
      let x3 := (l * l + (P - x1 % P) + (P - x2 % P)) % P
      some (x3, (l * (x1 + (P - x3)) + (P - y1 % P)) % P)

/-- Binary double-and-add loop for scalar multiplication, fuel-indexed. -/
def pointMulAux : Nat → Option (Nat × Nat) → Option (Nat × Nat) → Nat → Option (Nat × Nat)
  | 0, acc, _, _ => acc
  | fuel + 1, acc, base, k =>
    if k = 0 then acc
    else
      pointMulAux fuel (if k % 2 = 1 then pointAdd acc base else acc)
        (pointAdd base base) (k / 2)

/-- Scalar multiple `d * G` of the secp256k1 base point: the semantics of the
external `tinysecp.pointFromScalar` collaborator before compression. -/
def pointMul (d : Nat) : Option (Nat × Nat) := pointMulAux 257 none (some (Gx, Gy)) d

/-- SEC compressed encoding of an affine point: parity prefix byte 0x02/0x03
followed by the 32-byte big-endian x coordinate. -/
def compressP (pt : Nat × Nat) : List Nat := (if pt.2 % 2 = 0 then 2 else 3) :: be32 pt.1

/-- Model of `tinysecp.pointFromScalar(d, true)`: `null` on an out-of-range
scalar, otherwise the 33-byte compressed encoding of `d * G`. -/
def pointFromScalar (d : Nat) : Option (List Nat) :=
  if 1 ≤ d ∧ d < N then (pointMul d).map compressP else none

/-- Reconstructing the scalar from its 32-byte serialization truncates to
256 bits (`get secret` applied after `toBytes`/`set secret`). -/
theorem beNat_be32 (n : Nat) : beNat (be32 n) = n % 2 ^ 256 := by
  suffices h : ∀ k n : Nat,
      beNat ((List.range k).map (fun i => n / 256 ^ (k - 1 - i) % 256)) = n % 256 ^ k by
    have h32 := h 32 n
    have hpow : (256 : Nat) ^ 32 = 2 ^ 256 := by norm_num
    simpa [be32, hpow] using h32
  intro k
  induction k with
  | zero => intro n; simp [beNat, Nat.mod_one]
  | succ k ih =>
    intro n
    have hsplit : (List.range (k + 1)).map (fun i => n / 256 ^ (k - i) % 256)
        = ((List.range k).map (fun i => (n / 256) / 256 ^ (k - 1 - i) % 256)) ++ [n % 256] := by
      rw [List.range_succ, List.map_append]
      congr 1
      · apply List.map_congr_left
        intro i hi
        have hik : i < k := List.mem_range.mp hi
        have : n / 256 ^ (k - i) = n / 256 / 256 ^ (k - 1 - i) := by
          rw [Nat.div_div_eq_div_mul]
          congr 1
          rw [← pow_succ']
          congr 1
          omega
        rw [this]
      · simp
    simp only [Nat.add_sub_cancel]
    rw [hsplit]
    unfold beNat
    rw [List.foldl_append]
    have hih := ih (n / 256)
    unfold beNat at hih
    rw [hih]
    simp only [List.foldl_cons, List.foldl_nil]
    have hmm : n % (256 * 256 ^ k) = n % 256 + 256 * (n / 256 % 256 ^ k) := Nat.mod_mul
    have hp : (256 : Nat) ^ (k + 1) = 256 * 256 ^ k := by rw [pow_succ']
    rw [hp]
    omega

/-- The `PublicKey` constructor shared by src/src/keys/public-key.ts (lines
28-37) and src/src/crypto/public-key.ts (lines 28-37): rejects a 33-byte
input whose first byte is 0x03, prepends 0x02 to a 32-byte input, and stores
every other input unchanged. -/
def publicKeyMk (bytes : List Nat) : Except String (List Nat) :=
  if bytes.length = 33 ∧ bytes.headD 0 = 3 then
    .error "PUBLIC_KEY_CONSTRUCTOR_ERROR"
  else
    .ok (if bytes.length = 32 then 2 :: bytes else bytes)

/-- Seed argument of the src/src/keys/private-key.ts constructor: either
raw bytes or a bigint secret. -/
inductive Seed where
  | bytes (bs : List Nat)
  | secret (d : Nat)

/-- The src/src/keys/private-key.ts constructor (lines 33-63).  A falsy
seed (bigint 0) and a byte seed of the wrong length are rejected; a bigint
seed is range-checked against `[1, n)`; byte seeds are stored without any
range validation.  The result is the stored scalar value. -/
def keysPrivateKeyMk : Seed → Except String Nat
  | .bytes bs =>
    if bs.length ≠ 32 then .error "PRIVATE_KEY_CONSTRUCTOR_ERROR"
    else .ok (beNat bs)
  | .secret d =>
    if d = 0 then .error "PRIVATE_KEY_CONSTRUCTOR_ERROR"
    else if d < 1 ∨ d ≥ N then .error "PRIVATE_KEY_CONSTRUCTOR_ERROR"
    else .ok d

/-- Model of `tinysecp.isPrivate` on 32 bytes holding the scalar `d`. -/
def isPrivate (d : Nat) : Prop := 1 ≤ d ∧ d < N

instance (d : Nat) : Decidable (isPrivate d) := by unfold isPrivate; infer_instance

/-- The PrivateKey variant constructor embedded in src/src/keys/public-key.ts
(lines 226-244): requires 32 bytes and validates them with
`tinysecp.isPrivate`. -/
def privateKeyMkChecked (bs : List Nat) : Except String Nat :=
  if bs.length ≠ 32 then .error "PRIVATE_KEY_CONSTRUCTOR_ERROR"
  else if ¬ isPrivate (beNat bs) then .error "PRIVATE_KEY_CONSTRUCTOR_ERROR"
  else .ok (beNat bs)

/-- `PrivateKeyUtils.computePublicKey` of src/src/keys/private-key.ts (lines
244-265), also reached through `PrivateKey.computePublicKey` (lines 151-153):
derives the compressed point and hands it to the `PublicKey` constructor
without any parity handling. -/
def utilsComputePublicKey (d : Nat) : Except String (List Nat) :=
  match pointFromScalar d with
  | none => .error "COMPUTE_PUBLIC_KEY_ERROR"
  | some pk =>
    if pk.length ≠ 33 then .error "COMPUTE_PUBLIC_KEY_ERROR"
    else publicKeyMk pk

/-- The `set secret` accessor of the PrivateKey variant in
src/src/keys/public-key.ts (lines 247-263): serializes the bigint to 32
bytes and validates them with `tinysecp.isPrivate` before storing. -/
def setSecret (d : Nat) : Except String Nat :=
  if isPrivate (beNat (be32 d)) then .ok (beNat (be32 d))
  else .error "PRIVATE_KEY_SET_ERROR"

/-- `computePublicKey` of the PrivateKey variant in src/src/keys/public-key.ts
(lines 326-355): derive the compressed point; on parity prefix 0x02 wrap it
directly; otherwise replace the held secret by `n - d` through `set secret`,
rederive, and insist on even parity.  The result pairs the scalar held after
the call with the bytes of the constructed `PublicKey`. -/
def computePublicKey (d : Nat) : Except String (Nat × List Nat) :=
  match pointFromScalar d with
  | none => .error "PRIVATE_KEY_DERIVE_PUBLIC_KEY_ERROR"
  | some pk =>
    if pk.headD 0 = 2 then
      (publicKeyMk pk).map (fun bs => (d, bs))
    else
      match setSecret (N - d) with
      | .error e => .error e
      | .ok d2 =>
        match pointFromScalar d2 with
        | none => .error "PRIVATE_KEY_PARITY_ERROR"
        | some pk2 =>
          if pk2.headD 0 = 2 then (publicKeyMk pk2).map (fun bs => (d2, bs))
          else .error "PRIVATE_KEY_PARITY_ERROR"

/-- A constructed key pair: the optional private scalar and the stored
public key bytes. -/
structure KeyPairM where
  privateKey : Option Nat
  publicKey : List Nat
deriving DecidableEq

/-- The `KeyPair` constructor of src/src/keys/key-pair.ts (lines 30-38); the
constructor of src/src/crypto/key-pair.ts (lines 33-41) has the same shape.
With no key material it throws; a supplied public key is stored as given,
never compared against the private key; only when the public key is absent
is it derived from the private key. -/
def keyPairMk : Option Nat → Option (List Nat) → Except String KeyPairM
  | none, none => .error "KEYPAIR_CONSTRUCTOR_ERROR"
  | priv, some pub => .ok ⟨priv, pub⟩
  | some d, none =>
    match utilsComputePublicKey d with
    | .ok bs => .ok ⟨some d, bs⟩
    | .error e => .error e

/-- C10: the PublicKey constructor throws exactly on a 33-byte input whose
first byte is 0x03; every other byte array is accepted without length or
curve validation, 32-byte inputs being normalized with a 0x02 prefix and all
other lengths stored unchanged. -/
theorem publicKeyMk_characterization (bs : List Nat) :
    ((∃ e, publicKeyMk bs = .error e) ↔ bs.length = 33 ∧ bs.headD 0 = 3) ∧
    (bs.length = 32 → publicKeyMk bs = .ok (2 :: bs)) ∧
    (bs.length ≠ 32 → ¬(bs.length = 33 ∧ bs.headD 0 = 3) → publicKeyMk bs = .ok bs) := by
  refine ⟨⟨?_, ?_⟩, ?_, ?_⟩
  · rintro ⟨e, he⟩
    by_contra h
    rw [publicKeyMk, if_neg h] at he
    exact Except.noConfusion he
  · intro h
    exact ⟨_, by rw [publicKeyMk, if_pos h]⟩
  · intro h32
    have hn : ¬(bs.length = 33 ∧ bs.headD 0 = 3) := by
      rintro ⟨h33, _⟩
      omega
    rw [publicKeyMk, if_neg hn, if_pos h32]
  · intro hne hn
    rw [publicKeyMk, if_neg hn, if_neg hne]

/-- C10 witness: a 33-byte 0x03 input is rejected, a 32-byte input is
normalized with a 0x02 prefix. -/
theorem publicKeyMk_characterization_witness :
    (∃ e, publicKeyMk (3 :: List.replicate 32 0) = .error e) ∧
    publicKeyMk (List.replicate 32 7) = .ok (2 :: List.replicate 32 7) :=
  ⟨(publicKeyMk_characterization (3 :: List.replicate 32 0)).1.2 (by decide),
    (publicKeyMk_characterization (List.replicate 32 7)).2.1 (by decide)⟩

/-- C5 counterexample: the src/src/keys/private-key.ts constructor accepts a
32-byte input of zero bytes — which encodes the scalar 0, outside the valid
range — without any error. -/
theorem keysPrivateKeyMk_accepts_zero_bytes :
    keysPrivateKeyMk (Seed.bytes (List.replicate 32 0)) = .ok 0 ∧ ¬ (1 ≤ 0 ∧ 0 < N) := by
  decide

/-- C5 amended: the bigint-seed path and the PrivateKey variant constructor
of src/src/keys/public-key.ts validate the range `1 ≤ d < n`, while the
byte-seed path of src/src/keys/private-key.ts checks only the length. -/
theorem privateKey_construction_range (d : Nat) (bs : List Nat) :
    (keysPrivateKeyMk (Seed.secret d) = .ok d ↔ 1 ≤ d ∧ d < N) ∧
    ((∃ v, privateKeyMkChecked bs = .ok v) ↔
      bs.length = 32 ∧ 1 ≤ beNat bs ∧ beNat bs < N) ∧
    ((∃ v, keysPrivateKeyMk (Seed.bytes bs) = .ok v) ↔ bs.length = 32) := by
  refine ⟨⟨?_, ?_⟩, ⟨?_, ?_⟩, ⟨?_, ?_⟩⟩
  · intro h
    rw [keysPrivateKeyMk] at h
    split at h
    · exact Except.noConfusion h
    · split at h
      · exact Except.noConfusion h
      · omega
  · intro h
    rw [keysPrivateKeyMk, if_neg (by omega), if_neg (by omega)]
  · rintro ⟨v, hv⟩
    rw [privateKeyMkChecked] at hv
    split at hv
    · exact Except.noConfusion hv
    · split at hv
      · exact Except.noConfusion hv
      · rename_i hlen hpriv
        rw [isPrivate] at hpriv
        exact ⟨by omega, by omega, by omega⟩
  · rintro ⟨hlen, hlo, hhi⟩
    refine ⟨beNat bs, ?_⟩
    rw [privateKeyMkChecked, if_neg (by omega), if_neg ?_]
    rw [isPrivate]
    omega
  · rintro ⟨v, hv⟩
    rw [keysPrivateKeyMk] at hv
    split at hv
    · exact Except.noConfusion hv
    · omega
  · intro h
    exact ⟨beNat bs, by rw [keysPrivateKeyMk, if_neg (by omega)]⟩

/-- C5 amended witness: the scalar 1 is accepted on the bigint path, the
32-byte encoding of 1 is accepted by the validating variant, and 32 zero
bytes are accepted by the non-validating byte path. -/
theorem privateKey_construction_range_witness :
    keysPrivateKeyMk (Seed.secret 1) = .ok 1 ∧
    (∃ v, privateKeyMkChecked (be32 1) = .ok v) ∧
    (∃ v, keysPrivateKeyMk (Seed.bytes (List.replicate 32 0)) = .ok v) :=
  ⟨(privateKey_construction_range 1 []).1.mpr (by decide),
    (privateKey_construction_range 1 (be32 1)).2.1.mpr (by decide),
    (privateKey_construction_range 1 (List.replicate 32 0)).2.2.mpr (by decide)⟩

/-- C6: the KeyPair constructor accepts a private key together with an
unrelated public key and stores the mismatched pair without any check,
although the private scalar 1 derives the generator's public key. -/
theorem keyPairMk_accepts_mismatched_pair :
    keyPairMk (some 1) (some (2 :: List.replicate 32 0))
      = .ok ⟨some 1, 2 :: List.replicate 32 0⟩ ∧
    utilsComputePublicKey 1 = .ok (2 :: be32 Gx) ∧
    (2 :: List.replicate 32 0) ≠ 2 :: be32 Gx := by
  refine ⟨by rfl, by decide, by decide⟩

theorem N_lt_two_pow : N < 2 ^ 256 := by decide

/-- C1 counterexample: at the valid scalar 6 — whose derived point has odd
parity — `PrivateKeyUtils.computePublicKey` (src/src/keys/private-key.ts
lines 244-265, the path reached through `PrivateKey.computePublicKey` at
lines 151-153) throws the PublicKey constructor error instead of flipping
the held secret to `n - 6` and returning an even-parity key. -/
theorem utilsComputePublicKey_throws_on_odd_parity :
    (1 ≤ 6 ∧ 6 < N) ∧
    utilsComputePublicKey 6 = .error "PUBLIC_KEY_CONSTRUCTOR_ERROR" := by
  refine ⟨by decide, by decide⟩

/-- C1 amended: for every valid scalar `d`, `computePublicKey` of the
parity-handling PrivateKey variant (src/src/keys/public-key.ts lines
326-355) returns an even-parity (prefix 0x02) public key, and when `d * G`
has odd parity the held secret is first replaced by `n - d`, so the returned
key is derived from the scalar actually held afterwards; whereas
`PrivateKeyUtils.computePublicKey` (src/src/keys/private-key.ts lines
244-265, reached through `PrivateKey.computePublicKey` at lines 151-153)
performs no parity handling: it returns the derived key only when the
parity is already even and otherwise throws the PublicKey constructor
error.  The hypotheses `hxy` and `hneg` record the contract of the external
secp256k1 primitive: the scalar multiple of a valid scalar is a finite
point, and negating the scalar negates the point, flipping the parity of
`y` and keeping `x` (`(n - d) * G = -(d * G)`). -/
theorem computePublicKey_parity_variants (d x y : Nat)
    (h1 : 1 ≤ d) (h2 : d < N)
    (hxy : pointMul d = some (x, y))
    (hneg : y % 2 = 1 → ∃ y2, pointMul (N - d) = some (x, y2) ∧ y2 % 2 = 0) :
    (∃ d2 bs, computePublicKey d = .ok (d2, bs) ∧
      bs.headD 0 = 2 ∧
      pointFromScalar d2 = some bs ∧
      d2 = if y % 2 = 0 then d else N - d) ∧
    (y % 2 = 0 → utilsComputePublicKey d = .ok (2 :: be32 x)) ∧
    (y % 2 = 1 → utilsComputePublicKey d = .error "PUBLIC_KEY_CONSTRUCTOR_ERROR") := by
  have hvalid : 1 ≤ d ∧ d < N := ⟨h1, h2⟩
  have hpfs : pointFromScalar d = some (compressP (x, y)) := by
    rw [pointFromScalar, if_pos hvalid, hxy, Option.map_some']
  have hmk : ∀ x0 : Nat, publicKeyMk (2 :: be32 x0) = .ok (2 :: be32 x0) := by
    intro x0
    rw [publicKeyMk, if_neg (by simp), if_neg (by simp [be32_length])]
  refine ⟨?_, ?_, ?_⟩
  · rcases Nat.mod_two_eq_zero_or_one y with hy | hy
    · have hcomp : compressP (x, y) = 2 :: be32 x := by
        rw [compressP, if_pos hy]
      refine ⟨d, 2 :: be32 x, ?_, rfl, ?_, by rw [if_pos hy]⟩
      · rw [computePublicKey, hpfs, hcomp]
        simp only [List.headD_cons, if_pos rfl, if_true, hmk x, Except.map]
      · rw [hpfs, hcomp]
    · obtain ⟨y2, hy2, hy2e⟩ := hneg hy
      have hvalid2 : 1 ≤ N - d ∧ N - d < N := by omega
      have hpfs2 : pointFromScalar (N - d) = some (2 :: be32 x) := by
        rw [pointFromScalar, if_pos hvalid2, hy2, Option.map_some']
        rw [compressP, if_pos hy2e]
      have hset : setSecret (N - d) = .ok (N - d) := by
        have hr : beNat (be32 (N - d)) = N - d := by
          rw [beNat_be32, Nat.mod_eq_of_lt (by have := N_lt_two_pow; omega)]
        rw [setSecret, hr, if_pos ?_]
        rw [isPrivate]
        omega
      have hcomp : compressP (x, y) = 3 :: be32 x := by
        rw [compressP, if_neg (by omega)]
      refine ⟨N - d, 2 :: be32 x, ?_, rfl, hpfs2, by rw [if_neg (by omega)]⟩
      rw [computePublicKey, hpfs, hcomp]
      simp only [List.headD_cons, if_neg (by decide : ¬ (3 : Nat) = 2), hset, hpfs2,
        List.headD_cons, if_pos rfl, if_true, hmk x, Except.map]
  · intro hy
    have hcomp : compressP (x, y) = 2 :: be32 x := by
      rw [compressP, if_pos hy]
    simp only [utilsComputePublicKey, hpfs, hcomp]
    rw [if_neg (by simp [be32_length]), hmk x]
  · intro hy
    have hcomp : compressP (x, y) = 3 :: be32 x := by
      rw [compressP, if_neg (by omega)]
    simp only [utilsComputePublicKey, hpfs, hcomp]
    rw [if_neg (by simp [be32_length]), publicKeyMk, if_pos (by simp [be32_length])]

/-- Cached evaluation: the scalar multiple of `n - 6` is the negation of the
multiple of 6 (same x, complementary y of even parity). -/
theorem pointMul_N_sub_six :
    pointMul (N - 6) =
      some (115780575977492633039504758427830329241728645270042306223540962614150928364886,
        37057025721515809211679672464182131982009266967775367602652617524301408111000) := by
  decide

/-- C1 amended witness: the scalar 6 derives an odd-parity point, so the
parity-handling variant flips the held secret to `n - 6` and returns a
prefix-0x02 key, while the utils path throws the constructor error. -/
theorem computePublicKey_parity_variants_witness :
    (∃ d2 bs, computePublicKey 6 = .ok (d2, bs) ∧
      bs.headD 0 = 2 ∧
      pointFromScalar d2 = some bs ∧
      d2 = if 78735063515800386211891312544505775871260717697865196436804966483607426560663 % 2 = 0
        then 6 else N - 6) ∧
    (78735063515800386211891312544505775871260717697865196436804966483607426560663 % 2 = 0 →
      utilsComputePublicKey 6
        = .ok (2 :: be32 115780575977492633039504758427830329241728645270042306223540962614150928364886)) ∧
    (78735063515800386211891312544505775871260717697865196436804966483607426560663 % 2 = 1 →
      utilsComputePublicKey 6 = .error "PUBLIC_KEY_CONSTRUCTOR_ERROR") :=
  computePublicKey_parity_variants 6
    115780575977492633039504758427830329241728645270042306223540962614150928364886
    78735063515800386211891312544505775871260717697865196436804966483607426560663
    (by decide) (by decide) (by decide)
    (fun _ =>
      ⟨37057025721515809211679672464182131982009266967775367602652617524301408111000,
        pointMul_N_sub_six, by decide⟩)

/-- The base58btc alphabet of the multiformats codec consumed by
src/src/keys/public-key.ts. -/
def b58Chars : List Char :=
  "123456789ABCDEFGHJKLMNPQRSTUVWXYZabcdefghijkmnopqrstuvwxyz".data

/-- Digit-to-character table lookup of the base58 encoder. -/
def b58Char (d : Nat) : Char := b58Chars.getD d '1'

/-- Character-to-digit lookup of the base58 decoder. -/
def b58Digit (c : Char) : Option Nat := b58Chars.indexOf? c

/-- Little-endian base-`b` digits of `n`, fuel-indexed (the division loop of
the baseX codec). -/
def natToLE (b : Nat) : Nat → Nat → List Nat
  | 0, _ => []
  | fuel + 1, n => if n = 0 then [] else n % b :: natToLE b fuel (n / b)

/-- Value of a little-endian digit list. -/
def leVal (b : Nat) (ds : List Nat) : Nat := ds.foldr (fun d acc => acc * b + d) 0

/-- Big-endian base-`b` digit string of `n` (empty for 0). -/
def toBase (b n : Nat) : List Nat := (natToLE b n n).reverse

/-- Value of a big-endian digit list (the accumulation loop of the baseX
decoder). -/
def ofBase (b : Nat) (ds : List Nat) : Nat := ds.foldl (fun acc d => acc * b + d) 0

theorem ofBase_reverse (b : Nat) (ds : List Nat) : ofBase b ds.reverse = leVal b ds := by
  rw [ofBase, List.foldl_reverse]
  rfl

theorem leVal_natToLE (b : Nat) (hb : 2 ≤ b) :
    ∀ fuel n, n < b ^ fuel → leVal b (natToLE b fuel n) = n := by
  intro fuel
  induction fuel with
  | zero =>
    intro n hn
    simp only [pow_zero, Nat.lt_one_iff] at hn
    simp [natToLE, leVal, hn]
  | succ fuel ih =>
    intro n hn
    rw [natToLE]
    split
    · simp [leVal]; omega
    · rename_i hne
      have hdiv : n / b < b ^ fuel := by
        rw [Nat.div_lt_iff_lt_mul (by omega)]
        calc n < b ^ (fuel + 1) := hn
        _ = b ^ fuel * b := by rw [pow_succ]
      have hih := ih (n / b) hdiv
      have hgoal : leVal b (n % b :: natToLE b fuel (n / b))
          = leVal b (natToLE b fuel (n / b)) * b + n % b := by
        simp [leVal]
      rw [hgoal, hih]
      exact Nat.div_add_mod' n b

theorem natToLE_entries (b : Nat) (hb : 0 < b) :
    ∀ fuel n, ∀ d ∈ natToLE b fuel n, d < b := by
  intro fuel
  induction fuel with
  | zero => intro n d hd; simp [natToLE] at hd
  | succ fuel ih =>
    intro n d hd
    rw [natToLE] at hd
    split at hd
    · simp at hd
    · rcases List.mem_cons.mp hd with h | h
      · subst h; exact Nat.mod_lt _ hb
      · exact ih _ _ h

theorem ofBase_toBase (b : Nat) (hb : 2 ≤ b) (n : Nat) : ofBase b (toBase b n) = n := by
  rw [toBase, ofBase_reverse]
  rcases Nat.eq_zero_or_pos n with h0 | hpos
  · subst h0; simp [natToLE, leVal]
  · exact leVal_natToLE b hb n n
      (lt_of_lt_of_le (Nat.lt_two_pow n) (Nat.pow_le_pow_left hb n))

theorem toBase_entries (b : Nat) (hb : 0 < b) (n : Nat) : ∀ d ∈ toBase b n, d < b := by
  intro d hd
  rw [toBase, List.mem_reverse] at hd
  exact natToLE_entries b hb n n d hd

theorem leVal_pos_of_getLast (b : Nat) (hb : 0 < b) :
    ∀ ds d, ds.getLast? = some d → d ≠ 0 → 0 < leVal b ds := by
  intro ds
  induction ds with
  | nil => intro d hd; simp at hd
  | cons x t ih =>
    intro d hd hne
    rcases t with _ | ⟨y, t2⟩
    · simp at hd
      subst hd
      simp [leVal]
      omega
    · rw [List.getLast?_cons_cons] at hd
      have := ih d hd hne
      rw [leVal] at *
      simp only [List.foldr_cons] at *
      have hmul : 0 < (List.foldr (fun d acc => acc * b + d) 0 t2 * b + y) * b := by
        apply Nat.mul_pos _ hb
        omega
      omega

theorem natToLE_canonical (b : Nat) (hb : 2 ≤ b) :
    ∀ ds fuel, (∀ d ∈ ds, d < b) → (∀ d, ds.getLast? = some d → d ≠ 0) →
      leVal b ds < b ^ fuel → natToLE b fuel (leVal b ds) = ds := by
  intro ds
  induction ds with
  | nil =>
    intro fuel _ _ _
    cases fuel <;> simp [natToLE, leVal]
  | cons x t ih =>
    intro fuel hlt hlast hfuel
    have hx : x < b := hlt x (by simp)
    have hval : leVal b (x :: t) = leVal b t * b + x := by
      rw [leVal, List.foldr_cons]; rfl
    have hpos : 0 < leVal b (x :: t) := by
      have hd := List.getLast?_eq_getLast (x :: t) (by simp)
      exact leVal_pos_of_getLast b (by omega) _ _ hd (hlast _ hd)
    rcases fuel with _ | fuel
    · simp only [pow_zero, Nat.lt_one_iff] at hfuel
      omega
    · rw [natToLE, if_neg (by omega), hval]
      have hcomm : leVal b t * b + x = b * leVal b t + x := by ring
      have hmod : (leVal b t * b + x) % b = x := by
        rw [hcomm, Nat.mul_add_mod, Nat.mod_eq_of_lt hx]
      have hdivv : (leVal b t * b + x) / b = leVal b t := by
        rw [hcomm, Nat.mul_add_div (by omega : 0 < b), Nat.div_eq_of_lt hx, Nat.add_zero]
      rw [hmod, hdivv]
      congr 1
      apply ih fuel (fun d hd => hlt d (by simp [hd]))
      · intro d hd
        apply hlast
        rcases t with _ | _
        · simp at hd
        · rw [List.getLast?_cons_cons]; exact hd
      · have : leVal b t * b + x < b ^ (fuel + 1) := by rw [← hval]; exact hfuel
        rw [pow_succ] at this
        by_contra hge
        push_neg at hge
        have : b ^ fuel * b ≤ leVal b t * b := Nat.mul_le_mul_right _ hge
        omega

theorem toBase_ofBase_canonical (b : Nat) (hb : 2 ≤ b) (ds : List Nat)
    (hd : ∀ d ∈ ds, d < b) (hhead : ∀ d, ds.head? = some d → d ≠ 0) :
    toBase b (ofBase b ds) = ds := by
  have hval : ofBase b ds = leVal b ds.reverse := by
    rw [← ofBase_reverse, List.reverse_reverse]
  rcases ds with _ | ⟨h, t⟩
  · simp [ofBase, toBase, natToLE]
  · have hne : h ≠ 0 := hhead h rfl
    have hpos : 0 < leVal b (h :: t).reverse := by
      have hlast : ((h :: t).reverse).getLast? = some h := by
        rw [List.getLast?_reverse]
        rfl
      exact leVal_pos_of_getLast b (by omega) _ h hlast hne
    rw [toBase, hval]
    have hlt : leVal b (h :: t).reverse < b ^ leVal b (h :: t).reverse :=
      lt_of_lt_of_le (Nat.lt_two_pow _) (Nat.pow_le_pow_left hb _)
    rw [natToLE_canonical b hb (h :: t).reverse _
      (fun d hdm => hd d (List.mem_reverse.mp hdm))
      (fun d hdl => by
        rw [List.getLast?_reverse] at hdl
        exact hhead d hdl) hlt]
    exact List.reverse_reverse _

theorem natToLE_zero (b fuel : Nat) : natToLE b fuel 0 = [] := by
  cases fuel <;> simp [natToLE]

theorem natToLE_getLast_ne_zero (b : Nat) (hb : 2 ≤ b) :
    ∀ fuel n, 0 < n → n < b ^ fuel →
      ∀ d, (natToLE b fuel n).getLast? = some d → d ≠ 0 := by
  intro fuel
  induction fuel with
  | zero =>
    intro n hn hlt
    simp only [pow_zero, Nat.lt_one_iff] at hlt
    omega
  | succ fuel ih =>
    intro n hn hlt d hd
    rw [natToLE, if_neg (by omega)] at hd
    rcases Nat.eq_zero_or_pos (n / b) with hq | hq
    · rw [hq, natToLE_zero] at hd
      rw [show ([n % b] : List Nat).getLast? = some (n % b) from rfl] at hd
      rw [Option.some_inj] at hd
      have hnb : n < b := (Nat.div_eq_zero_iff (by omega)).mp hq
      rw [Nat.mod_eq_of_lt hnb] at hd
      omega
    · have hdiv : n / b < b ^ fuel := by
        rw [Nat.div_lt_iff_lt_mul (by omega)]
        calc n < b ^ (fuel + 1) := hlt
        _ = b ^ fuel * b := by rw [pow_succ]
      have hne : natToLE b fuel (n / b) ≠ [] := by
        rcases fuel with _ | fuel
        · simp only [pow_zero, Nat.lt_one_iff] at hdiv
          omega
        · rw [natToLE, if_neg (by omega)]
          simp
      obtain ⟨r, rs, hr⟩ := List.exists_cons_of_ne_nil hne
      rw [hr, List.getLast?_cons_cons] at hd
      rw [← hr] at hd
      exact ih (n / b) hq hdiv d hd

theorem toBase_head_ne_zero (b : Nat) (hb : 2 ≤ b) (n : Nat) (hn : 0 < n) :
    ∀ d, (toBase b n).head? = some d → d ≠ 0 := by
  intro d hd
  rw [toBase, List.head?_reverse] at hd
  exact natToLE_getLast_ne_zero b hb n n hn
    (lt_of_lt_of_le (Nat.lt_two_pow _) (Nat.pow_le_pow_left hb _)) d hd

theorem toBase_ne_nil (b : Nat) (hb : 2 ≤ b) (n : Nat) (hn : 0 < n) : toBase b n ≠ [] := by
  intro h
  have := ofBase_toBase b hb n
  rw [h] at this
  simp [ofBase] at this
  omega

theorem ofBase_pos (b : Nat) (hb : 0 < b) (ds : List Nat) (d : Nat)
    (hd : ds.head? = some d) (hne : d ≠ 0) : 0 < ofBase b ds := by
  have hval : ofBase b ds = leVal b ds.reverse := by
    rw [← ofBase_reverse, List.reverse_reverse]
  rw [hval]
  apply leVal_pos_of_getLast b hb _ d _ hne
  rw [List.getLast?_reverse]
  exact hd

/-- base58btc encoding of a byte array, as performed by the multiformats
collaborator: multibase prefix character, one alphabet zero per leading zero
byte, then the base-58 digit string of the value. -/
def base58Encode (bs : List Nat) : List Char :=
  'z' :: (List.replicate (bs.takeWhile (· == 0)).length '1'
    ++ (toBase 58 (ofBase 256 bs)).map b58Char)

/-- Character-by-character digit decoding loop of the base58 decoder. -/
def decodeDigits : List Char → Option (List Nat)
  | [] => some []
  | c :: cs =>
    match b58Digit c, decodeDigits cs with
    | some d, some ds => some (d :: ds)
    | _, _ => none

/-- base58btc decoding: requires the multibase prefix character, turns each
leading alphabet zero into a zero byte and the remaining digit string into
its big-endian byte representation. -/
def base58Decode : List Char → Except String (List Nat)
  | [] => .error "Unable to decode multibase string"
  | c :: rest =>
    if c = 'z' then
      match decodeDigits (rest.drop (rest.takeWhile (· == '1')).length) with
      | none => .error "Non-base58btc character"
      | some ds =>
        .ok (List.replicate (rest.takeWhile (· == '1')).length 0
          ++ toBase 256 (ofBase 58 ds))
    else .error "Unable to decode multibase string"

theorem b58_digit_char : ∀ d ∈ List.range 58, b58Digit (b58Char d) = some d := by
  decide

theorem b58_char_ne_one : ∀ d ∈ List.range 58, d ≠ 0 → b58Char d ≠ '1' := by
  decide

theorem decodeDigits_map (ds : List Nat) (hd : ∀ d ∈ ds, d < 58) :
    decodeDigits (ds.map b58Char) = some ds := by
  induction ds with
  | nil => rfl
  | cons d t ih =>
    have hdig : b58Digit (b58Char d) = some d :=
      b58_digit_char d (List.mem_range.mpr (hd d (by simp)))
    rw [List.map_cons, decodeDigits, hdig, ih (fun e he => hd e (by simp [he]))]

/-- Decoding inverts encoding for any byte array with a nonzero first
byte. -/
theorem base58_roundtrip (bs : List Nat) (h : Nat) (t : List Nat)
    (hbs : bs = h :: t) (hh : h ≠ 0) (hlt : ∀ x ∈ bs, x < 256) :
    base58Decode (base58Encode bs) = .ok bs := by
  subst hbs
  have hn : 0 < ofBase 256 (h :: t) := ofBase_pos 256 (by omega) _ h rfl hh
  set n := ofBase 256 (h :: t) with hdefn
  have htw : ((h :: t).takeWhile (· == 0)).length = 0 := by
    rw [List.takeWhile_cons]
    simp [hh]
  have hdig_ne : toBase 58 n ≠ [] := toBase_ne_nil 58 (by omega) n hn
  obtain ⟨d0, dt, hd0⟩ := List.exists_cons_of_ne_nil hdig_ne
  have hd0lt : d0 < 58 := toBase_entries 58 (by omega) n d0 (by rw [hd0]; simp)
  have hd0ne : d0 ≠ 0 := toBase_head_ne_zero 58 (by omega) n hn d0 (by rw [hd0]; rfl)
  have hc0 : b58Char d0 ≠ '1' := b58_char_ne_one d0 (List.mem_range.mpr hd0lt) hd0ne
  rw [base58Encode, htw]
  rw [base58Decode]
  rw [if_pos rfl]
  have hrest : List.replicate 0 '1' ++ (toBase 58 n).map b58Char
      = (toBase 58 n).map b58Char := by simp
  rw [hrest, hd0, List.map_cons]
  have htw2 : ((b58Char d0 :: dt.map b58Char).takeWhile (· == '1')).length = 0 := by
    rw [List.takeWhile_cons]
    simp [hc0]
  rw [htw2, List.drop_zero, ← List.map_cons, ← hd0]
  rw [decodeDigits_map _ (toBase_entries 58 (by omega) n)]
  show Except.ok (List.replicate 0 0 ++ toBase 256 (ofBase 58 (toBase 58 n)))
    = Except.ok (h :: t)
  rw [ofBase_toBase 58 (by omega) n]
  rw [hdefn]
  rw [toBase_ofBase_canonical 256 (by omega) _ hlt
    (fun d hd => by simp only [List.head?_cons, Option.some_inj] at hd; omega)]
  simp

/-- `PublicKeyUtils.encode` of src/src/keys/public-key.ts (lines 192-200):
requires a 32-byte x-only key and base58btc-encodes the fixed two-byte
header followed by the key. -/
def publicKeyEncode (xOnly : List Nat) : Except String (List Char) :=
  if xOnly.length = 32 then .ok (base58Encode (SECP256K1_XONLY_PREFIX ++ xOnly))
  else .error "x-only public key must be 32 bytes"

/-- `PublicKeyUtils.decode` of src/src/keys/public-key.ts (lines 177-184):
base58btc-decodes the string, verifies the two-byte header, and returns the
decoded bytes — header included, nothing is stripped. -/
def publicKeyDecode (s : List Char) : Except String (List Nat) :=
  match base58Decode s with
  | .error e => .error e
  | .ok bs =>
    if ((bs.take 2).zip SECP256K1_XONLY_PREFIX).all (fun p => p.1 == p.2)
    then .ok bs
    else .error "DECODE_PUBLIC_KEY_MULTIBASE_ERROR"

/-- C2 counterexample: for the valid scalar 1 the derived x-only key is the
32-byte encoding of `Gx`, and decoding its multibase encoding yields the
34-byte header-plus-key array, not the bare 32-byte x-coordinate. -/
theorem multibase_decode_keeps_header :
    pointFromScalar 1 = some (2 :: be32 Gx) ∧
    publicKeyEncode (be32 Gx) = .ok (base58Encode (SECP256K1_XONLY_PREFIX ++ be32 Gx)) ∧
    publicKeyDecode (base58Encode (SECP256K1_XONLY_PREFIX ++ be32 Gx))
      = .ok (SECP256K1_XONLY_PREFIX ++ be32 Gx) ∧
    Except.ok (SECP256K1_XONLY_PREFIX ++ be32 Gx)
      ≠ (.ok (be32 Gx) : Except String (List Nat)) := by
  refine ⟨by decide, by decide, by decide, by decide⟩

/-- C2 amended: for every valid scalar, decoding the multibase encoding of
the derived key's x-coordinate returns the two-byte header `[0xe1, 0x4a]`
followed by that x-coordinate (the header is checked but never stripped). -/
theorem publicKey_multibase_roundtrip (d x y : Nat)
    (h1 : 1 ≤ d) (h2 : d < N) (hxy : pointMul d = some (x, y)) :
    publicKeyEncode (be32 x) = .ok (base58Encode (SECP256K1_XONLY_PREFIX ++ be32 x)) ∧
    publicKeyDecode (base58Encode (SECP256K1_XONLY_PREFIX ++ be32 x))
      = .ok (SECP256K1_XONLY_PREFIX ++ be32 x) := by
  constructor
  · rw [publicKeyEncode, if_pos (be32_length x)]
  · have hlt : ∀ b ∈ SECP256K1_XONLY_PREFIX ++ be32 x, b < 256 := by
      intro b hb
      rcases List.mem_append.mp hb with hb | hb
      · simp only [SECP256K1_XONLY_PREFIX, List.mem_cons, List.mem_singleton] at hb
        rcases hb with rfl | rfl | hb
        · decide
        · decide
        · simp at hb
      · exact be32_entries_lt x b hb
    have hrt := base58_roundtrip (SECP256K1_XONLY_PREFIX ++ be32 x)
      0xe1 ([0x4a] ++ be32 x) (by simp [SECP256K1_XONLY_PREFIX]) (by decide) hlt
    have hc : (((SECP256K1_XONLY_PREFIX ++ be32 x).take 2).zip SECP256K1_XONLY_PREFIX).all
        (fun p => p.1 == p.2) = true := by rfl
    simp only [publicKeyDecode, hrt, hc, if_true]

/-- C2 amended witness: the roundtrip at the scalar 1 with the generator's
x-coordinate. -/
theorem publicKey_multibase_roundtrip_witness :
    publicKeyEncode (be32 Gx) = .ok (base58Encode (SECP256K1_XONLY_PREFIX ++ be32 Gx)) ∧
    publicKeyDecode (base58Encode (SECP256K1_XONLY_PREFIX ++ be32 Gx))
      = .ok (SECP256K1_XONLY_PREFIX ++ be32 Gx) :=
  publicKey_multibase_roundtrip 1 Gx Gy (by decide) (by decide) (by decide)

/-- Truncation to a 32-bit word. -/
def w32 (n : Nat) : Nat := n % 4294967296

/-- 32-bit right rotation (operands kept below 2 ^ 32). -/
def rotr (n x : Nat) : Nat := w32 (x / 2 ^ n + x * 2 ^ (32 - n))

/-- SHA-256 round constants. -/
def sha256K : List Nat :=
  [1116352408, 1899447441, 3049323471, 3921009573, 961987163,
   1508970993, 2453635748, 2870763221, 3624381080, 310598401,
   607225278, 1426881987, 1925078388, 2162078206, 2614888103,
   3248222580, 3835390401, 4022224774, 264347078, 604807628,
   770255983, 1249150122, 1555081692, 1996064986, 2554220882,
   2821834349, 2952996808, 3210313671, 3336571891, 3584528711,
   113926993, 338241895, 666307205, 773529912, 1294757372,
   1396182291, 1695183700, 1986661051, 2177026350, 2456956037,
   2730485921, 2820302411, 3259730800, 3345764771, 3516065817,
   3600352804, 4094571909, 275423344, 430227734, 506948616,
   659060556, 883997877, 958139571, 1322822218, 1537002063,
   1747873779, 1955562222, 2024104815, 2227730452, 2361852424,
   2428436474, 2756734187, 3204031479, 3329325298]

/-- SHA-256 working state: eight 32-bit words. -/
structure H8 where
  a : Nat
  b : Nat
  c : Nat
  d : Nat
  e : Nat
  f : Nat
  g : Nat
  h : Nat
deriving DecidableEq

/-- One SHA-256 compression round. -/
def sha256Round (st : H8) (kw : Nat) : H8 :=
  let s1 := rotr 6 st.e ^^^ rotr 11 st.e ^^^ rotr 25 st.e
  let ch := st.e &&& st.f ^^^ (st.e ^^^ 4294967295) &&& st.g
  let t1 := w32 (st.h + s1 + ch + kw)
  let s0 := rotr 2 st.a ^^^ rotr 13 st.a ^^^ rotr 22 st.a
  let mj := st.a &&& st.b ^^^ st.a &&& st.c ^^^ st.b &&& st.c
  let t2 := w32 (s0 + mj)
  ⟨w32 (t1 + t2), st.a, st.b, st.c, w32 (st.d + t1), st.e, st.f, st.g⟩

/-- Message-schedule extension step count is 48; each step appends one word
derived from the previous sixteen. -/
def sha256Extend : Nat → List Nat → List Nat
  | 0, w => w
  | fuel + 1, w =>
    let s0r := w.getD (w.length - 15) 0
    let s1r := w.getD (w.length - 2) 0
    let s0 := rotr 7 s0r ^^^ rotr 18 s0r ^^^ s0r / 2 ^ 3
    let s1 := rotr 17 s1r ^^^ rotr 19 s1r ^^^ s1r / 2 ^ 10
    sha256Extend fuel
      (w ++ [w32 (w.getD (w.length - 16) 0 + s0 + w.getD (w.length - 7) 0 + s1)])

/-- Big-endian 32-bit words of a byte list. -/
def words16 : List Nat → List Nat
  | b0 :: b1 :: b2 :: b3 :: rest => (((b0 * 256 + b1) * 256 + b2) * 256 + b3) :: words16 rest
  | _ => []

/-- One 64-byte block of SHA-256. -/
def sha256Block (st : H8) (block : List Nat) : H8 :=
  let w := sha256Extend 48 (words16 block)
  let st2 := (sha256K.zip w).foldl (fun s p => sha256Round s (w32 (p.1 + p.2))) st
  ⟨w32 (st.a + st2.a), w32 (st.b + st2.b), w32 (st.c + st2.c), w32 (st.d + st2.d),
    w32 (st.e + st2.e), w32 (st.f + st2.f), w32 (st.g + st2.g), w32 (st.h + st2.h)⟩

/-- Big-endian 8-byte length field. -/
def be64 (n : Nat) : List Nat := (List.range 8).map (fun i => n / 256 ^ (7 - i) % 256)

/-- SHA-256 padding: 0x80, zeros to 56 mod 64, 64-bit bit length. -/
def sha256Pad (msg : List Nat) : List Nat :=
  msg ++ 0x80 :: List.replicate ((119 - msg.length % 64) % 64) 0 ++ be64 (8 * msg.length)

/-- Split into 64-byte blocks, fuel-indexed. -/
def chunks64 : Nat → List Nat → List (List Nat)
  | 0, _ => []
  | _ + 1, [] => []
  | fuel + 1, bs => bs.take 64 :: chunks64 fuel (bs.drop 64)

/-- Big-endian bytes of one 32-bit word. -/
def word4 (n : Nat) : List Nat := (List.range 4).map (fun i => n / 256 ^ (3 - i) % 256)

/-- Serialization of the final SHA-256 state. -/
def sha256Out (st : H8) : List Nat :=
  word4 st.a ++ word4 st.b ++ word4 st.c ++ word4 st.d
    ++ word4 st.e ++ word4 st.f ++ word4 st.g ++ word4 st.h

/-- SHA-256 of a byte list: executable model of the noble-hashes collaborator
used by Cryptosuite.generateHash.  Returns the 32 raw digest bytes. -/
def sha256 (msg : List Nat) : List Nat :=
  sha256Out ((chunks64 (msg.length + 9 + 64) (sha256Pad msg)).foldl sha256Block
    ⟨1779033703, 3144134277, 1013904242, 2773480762,
      1359893119, 2600822924, 528734635, 1541459225⟩)

theorem sha256_length (msg : List Nat) : (sha256 msg).length = 32 := by
  simp [sha256, sha256Out, word4]

/-- Lowercase hexadecimal alphabet of Buffer.toString('hex'). -/
def hexChars : List Char := "0123456789abcdef".data

/-- Hex string of a byte list, as produced by Buffer.toString('hex'). -/
def toHexChars (bs : List Nat) : List Char :=
  bs.flatMap (fun b => [hexChars.getD (b / 16) '0', hexChars.getD (b % 16) '0'])

theorem toHexChars_length (bs : List Nat) : (toHexChars bs).length = 2 * bs.length := by
  induction bs with
  | nil => rfl
  | cons b t ih =>
    rw [show toHexChars (b :: t)
      = [hexChars.getD (b / 16) '0', hexChars.getD (b % 16) '0'] ++ toHexChars t from rfl]
    rw [List.length_append, ih]
    simp only [List.length_cons, List.length_nil]
    omega

/-- UTF-8 encoding of a single code point (Buffer.from(s, 'utf-8')). -/
def utf8Char (c : Nat) : List Nat :=
  if c < 0x80 then [c]
  else if c < 0x800 then [0xc0 + c / 64, 0x80 + c % 64]
  else if c < 0x10000 then [0xe0 + c / 4096, 0x80 + c / 64 % 64, 0x80 + c % 64]
  else [0xf0 + c / 262144, 0x80 + c / 4096 % 64, 0x80 + c / 64 % 64, 0x80 + c % 64]

/-- UTF-8 byte buffer of a string, given as its code points. -/
def utf8 (s : List Nat) : List Nat := s.flatMap utf8Char

/-- `Cryptosuite.generateHash` (src/unnamed/part_004 lines 167-183):
concatenates the UTF-8 buffers of the canonical proof configuration and the
canonical document — configuration first — and returns the raw SHA-256
digest bytes. -/
def generateHash (canonicalConfig canonicalDocument : List Nat) : List Nat :=
  sha256 (utf8 canonicalConfig ++ utf8 canonicalDocument)

/-- `JcsCryptosuite.generateHash` (src/src/jcs-cryptosuite.ts lines 60-63,
same in rdfc-cryptosuite.ts): hashes the same concatenation but returns the
digest hex-encoded as a string. -/
def jcsGenerateHash (canonicalConfig canonicalDocument : List Nat) : List Char :=
  toHexChars (sha256 (utf8 canonicalConfig ++ utf8 canonicalDocument))

/-- C3 counterexample: the JcsCryptosuite variant of generateHash returns a
64-character hex string, not 32 raw digest bytes. -/
theorem jcsGenerateHash_not_raw_bytes :
    jcsGenerateHash [] []
      = ('e' :: '3' :: 'b' :: '0' :: 'c' :: '4' :: '4' :: '2' :: '9' :: '8' ::
         'f' :: 'c' :: '1' :: 'c' :: '1' :: '4' :: '9' :: 'a' :: 'f' :: 'b' ::
         'f' :: '4' :: 'c' :: '8' :: '9' :: '9' :: '6' :: 'f' :: 'b' :: '9' ::
         '2' :: '4' :: '2' :: '7' :: 'a' :: 'e' :: '4' :: '1' :: 'e' :: '4' ::
         '6' :: '4' :: '9' :: 'b' :: '9' :: '3' :: '4' :: 'c' :: 'a' :: '4' ::
         '9' :: '5' :: '9' :: '9' :: '1' :: 'b' :: '7' :: '8' :: '5' :: '2' ::
         'b' :: '8' :: '5' :: '5' :: []) ∧
    (jcsGenerateHash [] []).length ≠ 32 := by
  refine ⟨by decide, by decide⟩

/-- C3 amended: `Cryptosuite.generateHash` is the raw 32-byte SHA-256 digest
of the UTF-8 concatenation, configuration first; the JcsCryptosuite variant
returns the same digest hex-encoded as a 64-character string. -/
theorem generateHash_spec (cc cd : List Nat) :
    generateHash cc cd = sha256 (utf8 (cc ++ cd)) ∧
    (generateHash cc cd).length = 32 ∧
    jcsGenerateHash cc cd = toHexChars (generateHash cc cd) ∧
    (jcsGenerateHash cc cd).length = 64 := by
  refine ⟨?_, sha256_length _, rfl, ?_⟩
  · simp only [generateHash, utf8, List.flatMap_append]
  · rw [jcsGenerateHash, toHexChars_length, sha256_length]

/-- A proof record as handled by the cryptosuite and DataIntegrityProof
classes; a JSON field that is absent is `none`. -/
structure ProofM where
  type : Option String
  atType : Option String
  cryptosuite : Option String
  verificationMethod : Option String
  proofPurpose : Option String
  proofValue : Option String
  domain : Option String
  challenge : Option String
  context : Option String
deriving DecidableEq

/-- A JSON-LD-like document: its context, an opaque body, and an optional
attached proof. -/
structure DocumentM where
  context : Option String
  body : String
  proof : Option ProofM
deriving DecidableEq

/-- JavaScript truthiness of an optional string: absent and empty strings
are falsy. -/
def truthy : Option String → Bool
  | none => false
  | some s => s != ""

/-- JavaScript nullish coalescing `a ?? b` on optional strings. -/
def jsNullish (a b : Option String) : Option String :=
  match a with
  | some v => some v
  | none => b

/-- Errors thrown by DataIntegrityProof.verifyProof (src/unnamed/part_003):
the message strings of the `new Error(...)` calls, plus propagation of
whatever the delegated cryptosuite verification throws. -/
inductive DIError where
  | parsingError
  | proofVerificationError
  | invalidChallengeError
  | inner (e : String)
deriving DecidableEq

/-- Result shape of DataIntegrityProof.verifyProof. -/
structure DIResult where
  verified : Bool
  verifiedDocument : Option DocumentM
  mediaType : Option String
deriving DecidableEq

/-- `DataIntegrityProof.verifyProof` (src/unnamed/part_003 lines 44-84) after
JSON parsing: the missing-proof parsing check, the required-field and
expected-purpose checks throwing PROOF_VERIFICATION_ERROR, the distinct
INVALID_CHALLENGE_ERROR check, then delegation to the cryptosuite.  The
delegated `cryptosuite.verifyProof` enters as a function parameter. -/
def diVerifyProof (csVerify : DocumentM → Except String (Bool × Option DocumentM))
    (mediaType : Option String) (doc : DocumentM)
    (expectedProofPurpose : Option String) (challenge : Option String) :
    Except DIError DIResult :=
  match doc.proof with
  | none => .error .parsingError
  | some proof =>
    if truthy proof.type = false ∨ truthy proof.verificationMethod = false ∨
        truthy proof.proofPurpose = false then
      .error .proofVerificationError
    else if truthy expectedProofPurpose = true ∧ expectedProofPurpose ≠ proof.proofPurpose then
      .error .proofVerificationError
    else if truthy challenge = true ∧ challenge ≠ proof.challenge then
      .error .invalidChallengeError
    else
      match csVerify doc with
      | .error e => .error (.inner e)
      | .ok r => .ok ⟨r.1, r.2, mediaType⟩

/-- C4: verifyProof throws PROOF_VERIFICATION_ERROR when the proof lacks
type, verificationMethod or proofPurpose, or when a supplied
expectedProofPurpose disagrees; and it throws the distinct
INVALID_CHALLENGE_ERROR when those checks pass, a challenge is supplied, and
it disagrees with the proof's challenge. -/
theorem diVerifyProof_error_conditions
    (csVerify : DocumentM → Except String (Bool × Option DocumentM))
    (mt : Option String) (doc : DocumentM) (proof : ProofM)
    (hp : doc.proof = some proof) (expected challenge : Option String) :
    ((truthy proof.type = false ∨ truthy proof.verificationMethod = false ∨
        truthy proof.proofPurpose = false) →
      diVerifyProof csVerify mt doc expected challenge = .error .proofVerificationError) ∧
    (truthy proof.type = true → truthy proof.verificationMethod = true →
      truthy proof.proofPurpose = true →
      truthy expected = true → expected ≠ proof.proofPurpose →
      diVerifyProof csVerify mt doc expected challenge = .error .proofVerificationError) ∧
    (truthy proof.type = true → truthy proof.verificationMethod = true →
      truthy proof.proofPurpose = true →
      (truthy expected = true → expected = proof.proofPurpose) →
      truthy challenge = true → challenge ≠ proof.challenge →
      diVerifyProof csVerify mt doc expected challenge = .error .invalidChallengeError) := by
  refine ⟨?_, ?_, ?_⟩
  · intro h
    simp only [diVerifyProof, hp]
    rw [if_pos h]
  · intro h1 h2 h3 h4 h5
    simp only [diVerifyProof, hp]
    rw [if_neg (by simp [h1, h2, h3]), if_pos ⟨h4, h5⟩]
  · intro h1 h2 h3 h4 h5 h6
    simp only [diVerifyProof, hp]
    rw [if_neg (by simp [h1, h2, h3]),
      if_neg (by rintro ⟨he, hne⟩; exact hne (h4 he)),
      if_pos ⟨h5, h6⟩]

/-- C4 witness: a well-formed proof with challenge "abc" checked against the
supplied challenge "xyz" fails with the distinct challenge error. -/
theorem diVerifyProof_error_conditions_witness :
    diVerifyProof (fun _ => .ok (true, none)) none
      ⟨none, "",
        some ⟨some "DataIntegrityProof", none, some "bip-340-jcs-2025",
          some "did:example#key", some "assertionMethod", none, none,
          some "abc", none⟩⟩
      (some "assertionMethod") (some "xyz")
      = .error .invalidChallengeError :=
  (diVerifyProof_error_conditions _ _ _ _ rfl _ _).2.2 (by decide) (by decide)
    (by decide) (fun _ => rfl) (by decide) (by decide)

/-- The Multikey bound to a cryptosuite, as used by signing and verifying:
its identifiers, the optional private scalar, and the noble Schnorr
collaborator functions (signing draws fresh randomness per call, so the
signature production enters the model as an opaque function of the data). -/
structure MultikeyM where
  id : String
  controller : String
  privateKey : Option Nat
  signFn : List Nat → List Nat
  verifyFn : List Nat → List Nat → Bool

/-- `Multikey.fullId` (src/unnamed/part_004 lines 350-353): controller-
qualified when the id starts with the fragment character. -/
def fullId (mk : MultikeyM) : String :=
  match mk.id.data with
  | '#' :: _ => mk.controller ++ mk.id
  | _ => mk.id

/-- `Multikey.sign` (src/unnamed/part_004 lines 334-341): requires a private
key, then delegates to the Schnorr collaborator. -/
def multikeySign (mk : MultikeyM) (data : List Nat) : Except String (List Nat) :=
  if mk.privateKey.isSome then .ok (mk.signFn data)
  else .error "MULTIKEY_SIGN_ERROR"

/-- `Multikey.verify` (src/unnamed/part_004 lines 344-347). -/
def multikeyVerify (mk : MultikeyM) (sigb data : List Nat) : Bool := mk.verifyFn sigb data

/-- The Cryptosuite instance (src/unnamed/part_004): its fixed proof type,
configured cryptosuite name, bound multikey, and the external JCS/RDFC
canonicalizers, which return the canonical string (as code points). -/
structure CryptosuiteM where
  type : String
  cryptosuite : String
  multikey : MultikeyM
  canonicalizeProof : ProofM → List Nat
  canonicalizeDoc : DocumentM → List Nat

/-- `Cryptosuite.proofSerialization` (src/unnamed/part_004 lines 213-227):
fails unless options.verificationMethod equals the bound multikey's fullId,
then signs the hash. -/
def proofSerialization (cs : CryptosuiteM) (hashBytes : List Nat) (options : ProofM) :
    Except String (List Nat) :=
  if options.verificationMethod ≠ some (fullId cs.multikey) then
    .error "PROOF_SERIALIZATION_ERROR"
  else multikeySign cs.multikey hashBytes

/-- `Cryptosuite.proofVerification` (src/unnamed/part_004 lines 230-243):
the same gate, then the boolean Schnorr verification result, on the
arguments in the order the source passes them. -/
def proofVerification (cs : CryptosuiteM) (hashBytes proofBytes : List Nat) (options : ProofM) :
    Except String Bool :=
  if options.verificationMethod ≠ some (fullId cs.multikey) then
    .error "PROOF_VERIFICATION_ERROR"
  else .ok (multikeyVerify cs.multikey hashBytes proofBytes)

/-- C7: signing and verifying both fail on a verification-method mismatch
with the bound multikey's fullId, and on agreement proofSerialization signs
the hash while proofVerification returns the boolean Schnorr result. -/
theorem proof_vm_gate (cs : CryptosuiteM) (hashBytes proofBytes : List Nat)
    (options : ProofM) :
    (options.verificationMethod ≠ some (fullId cs.multikey) →
      proofSerialization cs hashBytes options = .error "PROOF_SERIALIZATION_ERROR" ∧
      proofVerification cs hashBytes proofBytes options = .error "PROOF_VERIFICATION_ERROR") ∧
    (options.verificationMethod = some (fullId cs.multikey) →
      (cs.multikey.privateKey.isSome = true →
        proofSerialization cs hashBytes options = .ok (cs.multikey.signFn hashBytes)) ∧
      proofVerification cs hashBytes proofBytes options
        = .ok (multikeyVerify cs.multikey hashBytes proofBytes)) := by
  constructor
  · intro h
    exact ⟨by rw [proofSerialization, if_pos h], by rw [proofVerification, if_pos h]⟩
  · intro h
    refine ⟨?_, by rw [proofVerification, if_neg (by simp [h])]⟩
    intro hsig
    rw [proofSerialization, if_neg (by simp [h]), multikeySign, if_pos hsig]

/-- Concrete cryptosuite instance used by the pipeline witnesses. -/
def csW : CryptosuiteM :=
  ⟨"DataIntegrityProof", "bip-340-jcs-2025",
    ⟨"#initialKey", "did:btc1:example", some 1, fun _ => [1, 2, 3], fun _ _ => true⟩,
    fun _ => [], fun _ => []⟩

/-- C7 witness: at a matching verification method the hash is signed and the
Schnorr result returned; at a mismatching one both operations fail. -/
theorem proof_vm_gate_witness :
    (proofSerialization csW [5] ⟨none, none, none, some "did:btc1:example#initialKey",
        none, none, none, none, none⟩ = .ok [1, 2, 3] ∧
      proofVerification csW [5] [6] ⟨none, none, none, some "did:btc1:example#initialKey",
        none, none, none, none, none⟩ = .ok true) ∧
    (proofSerialization csW [5] ⟨none, none, none, some "someone-else",
        none, none, none, none, none⟩ = .error "PROOF_SERIALIZATION_ERROR" ∧
      proofVerification csW [5] [6] ⟨none, none, none, some "someone-else",
        none, none, none, none, none⟩ = .error "PROOF_VERIFICATION_ERROR") :=
  ⟨⟨((proof_vm_gate csW [5] [6] _).2 (by decide)).1 rfl,
      ((proof_vm_gate csW [5] [6] _).2 (by decide)).2⟩,
    ⟨((proof_vm_gate csW [5] [6] _).1 (by decide)).1,
      ((proof_vm_gate csW [5] [6] _).1 (by decide)).2⟩⟩

/-- `Cryptosuite.transformDocument` (src/unnamed/part_004 lines 143-164):
checks `options.type ?? options['@type']` and `options.cryptosuite` against
the instance, then canonicalizes the document. -/
def transformDocument (cs : CryptosuiteM) (document : DocumentM) (options : ProofM) :
    Except String (List Nat) :=
  if jsNullish options.type options.atType ≠ some cs.type then
    .error "PROOF_VERIFICATION_ERROR"
  else if options.cryptosuite ≠ some cs.cryptosuite then
    .error "PROOF_VERIFICATION_ERROR"
  else .ok (cs.canonicalizeDoc document)

/-- `Cryptosuite.proofConfiguration` (src/unnamed/part_004 lines 186-211):
the same two checks with the generation error type, then canonicalization of
the proof options. -/
def proofConfiguration (cs : CryptosuiteM) (options : ProofM) : Except String (List Nat) :=
  if jsNullish options.type options.atType ≠ some cs.type then
    .error "PROOF_GENERATION_ERROR"
  else if options.cryptosuite ≠ some cs.cryptosuite then
    .error "PROOF_GENERATION_ERROR"
  else .ok (cs.canonicalizeProof options)

/-- `Cryptosuite.verifyProof` (src/unnamed/part_004 lines 116-140): strip the
proof from the document and proofValue from the options, base58-decode the
signature, canonicalize document and configuration, hash, verify, and return
the secured document exactly when verification succeeded. -/
def csVerifyProof (cs : CryptosuiteM) (secure : DocumentM) :
    Except String (Bool × Option DocumentM) :=
  match secure.proof with
  | none => .error "TYPE_ERROR"
  | some proof =>
    match proof.proofValue with
    | none => .error "TYPE_ERROR"
    | some pv =>
      match base58Decode pv.data with
      | .error e => .error e
      | .ok proofBytes =>
        match transformDocument cs { secure with proof := none }
            { proof with proofValue := none } with
        | .error e => .error e
        | .ok canonicalDocument =>
          match proofConfiguration cs { proof with proofValue := none } with
          | .error e => .error e
          | .ok canonicalConfig =>
            match proofVerification cs (generateHash canonicalConfig canonicalDocument)
                proofBytes { proof with proofValue := none } with
            | .error e => .error e
            | .ok verified => .ok (verified, if verified then some secure else none)

/-- C8: whenever Cryptosuite.verifyProof returns a result, the verified
document is the secured document exactly when `verified` is true and absent
when it is false — no partially verified output exists. -/
theorem csVerifyProof_never_partial (cs : CryptosuiteM) (secure : DocumentM)
    (v : Bool) (vd : Option DocumentM)
    (h : csVerifyProof cs secure = .ok (v, vd)) :
    vd = if v then some secure else none := by
  rw [csVerifyProof] at h
  split at h
  · exact Except.noConfusion h
  · split at h
    · exact Except.noConfusion h
    · split at h
      · exact Except.noConfusion h
      · split at h
        · exact Except.noConfusion h
        · split at h
          · exact Except.noConfusion h
          · split at h
            · exact Except.noConfusion h
            · rw [Except.ok.injEq, Prod.mk.injEq] at h
              obtain ⟨rfl, rfl⟩ := h
              rfl

/-- Secured document used by the C8 witness. -/
def docW : DocumentM :=
  ⟨none, "body",
    some ⟨some "DataIntegrityProof", none, some "bip-340-jcs-2025",
      some "did:btc1:example#initialKey", some "assertionMethod", some "z",
      none, none, none⟩⟩

/-- C8 witness: a run of the pipeline that verifies successfully returns the
secured document itself. -/
theorem csVerifyProof_never_partial_witness :
    csVerifyProof csW docW = .ok (true, some docW) ∧
    (some docW : Option DocumentM) = if true then some docW else none :=
  ⟨by decide, csVerifyProof_never_partial csW docW true (some docW) (by decide)⟩

/-- Modelled from the spec: `sqrtMod(a, p)` — valid for primes `p ≡ 3 (mod
4)` — returns `a^((p+1)/4) mod p` without verifying that `a` is a quadratic
residue (section 4.1 Curve Primitives; the function is absent from src/). -/
def sqrtMod (a p : Nat) : Nat := modPow a ((p + 1) / 4) p

/-- Modelled from the spec: `liftX(x)` fails with OutOfRange when the
32-byte big-endian x-coordinate is 0 or at least the field prime, and
otherwise returns the 65-byte uncompressed point `0x04 ‖ x ‖ y` with
`y = sqrtMod(x³ + 7 mod p, p)` — whichever root the formula yields, no
parity enforcement (section 4.1 Curve Primitives; absent from src/). -/
def liftX (xbytes : List Nat) : Except String (List Nat) :=
  if beNat xbytes = 0 ∨ beNat xbytes ≥ P then .error "OutOfRange"
  else .ok (4 :: xbytes ++ be32 (sqrtMod ((beNat xbytes ^ 3 + 7) % P) P))

/-- C9: liftX rejects exactly the out-of-range x-coordinates and otherwise
produces the 65-byte uncompressed point whose y is the unadjusted square
root of `x³ + 7 mod p`. -/
theorem liftX_spec (xbytes : List Nat) (hlen : xbytes.length = 32) :
    ((beNat xbytes = 0 ∨ beNat xbytes ≥ P) → liftX xbytes = .error "OutOfRange") ∧
    (0 < beNat xbytes → beNat xbytes < P →
      liftX xbytes = .ok (4 :: xbytes ++ be32 (sqrtMod ((beNat xbytes ^ 3 + 7) % P) P)) ∧
      ∀ bs, liftX xbytes = .ok bs → bs.length = 65) := by
  constructor
  · intro h
    rw [liftX, if_pos h]
  · intro h1 h2
    have hcond : ¬ (beNat xbytes = 0 ∨ beNat xbytes ≥ P) := by omega
    constructor
    · rw [liftX, if_neg hcond]
    · intro bs hbs
      rw [liftX, if_neg hcond, Except.ok.injEq] at hbs
      rw [← hbs]
      simp [hlen, be32_length]

/-- C9 witness: lifting the generator's x-coordinate. -/
theorem liftX_spec_witness :
    liftX (be32 Gx)
      = .ok (4 :: be32 Gx ++ be32 (sqrtMod ((beNat (be32 Gx) ^ 3 + 7) % P) P)) ∧
    ∀ bs, liftX (be32 Gx) = .ok bs → bs.length = 65 :=
  (liftX_spec (be32 Gx) (be32_length Gx)).2 (by decide) (by decide)
